import Mathlib

/-!
Verification of the bounded multi-tier conversation memory store of the
deno-telegram-buddy repository.

The embedding translates the storage modules of the repository into pure
Lean definitions:

* `KvStore`      models src/kvStore.deno.ts: the Deno-KV backed chat memory
  store with its in-memory fallback.  The Deno KV service itself is modelled
  as, per chat, a list of entries kept in ascending key order (Deno KV lists
  entries in ascending key order); keys are pairs (timestamp, id).  ISO-8601
  timestamp strings of a fixed format compare lexicographically exactly like
  the instants they denote, and the code always writes the same timestamp
  into the key and into the record, so timestamps are modelled as natural
  numbers and record ids as natural numbers.  Failures that the code catches
  with try/catch are modelled by an explicit response value passed to every
  operation that talks to Deno KV.
* `Db`           models src/db.supabase.ts: the Supabase backed store.  The
  remote table is modelled as a list of rows in insertion order; a query
  outcome value stands for the error channel of the client.
* `Bot`          models the context-building part of
  src/botController.deno.ts, plus validateWebhookSecret.
* `DataStoreM`   models the prompt part of src/dataStore.deno.ts.
-/

/-- Record stored per interaction (interface ChatMemoryRecord of
src/kvStore.deno.ts).  The ISO timestamp string is modelled as a Nat. -/
structure ChatMemoryRecord where
  chatId : Nat
  userId : Nat
  username : Option String
  userMessage : String
  botReply : String
  timestamp : Nat
  deriving Repr, DecidableEq

namespace KvStore

/-- One Deno KV entry under key ["chat", chatId, timestamp, id].  The code
always builds the key with the same timestamp that is stored inside the
record (buildKey in src/kvStore.deno.ts line 35), so the key of an entry is
the pair (rec.timestamp, id). -/
structure KVEntry where
  id : Nat
  value : ChatMemoryRecord
  deriving Repr, DecidableEq

/-- Key of an entry, as ordered by Deno KV: (timestamp, id). -/
def entryKey (e : KVEntry) : Nat × Nat := (e.value.timestamp, e.id)

/-- Strict lexicographic order on KV keys. -/
def keyLt (a b : Nat × Nat) : Prop :=
  a.1 < b.1 ∨ (a.1 = b.1 ∧ a.2 < b.2)

instance (a b : Nat × Nat) : Decidable (keyLt a b) := by
  unfold keyLt; infer_instance

/-- Error kinds distinguished by the specification.  The code of
src/kvStore.deno.ts catches every exception uniformly, so the kind is
carried only to settle the claims that mention it. -/
inductive ErrKind where
  | unavailable
  | corrupt
  deriving Repr, DecidableEq

/-- Outcome of one Deno KV operation inside a try block. -/
inductive KVResp where
  | ok
  | err (k : ErrKind)
  deriving Repr, DecidableEq

/-- Outcome of the KV block of saveInteraction, which performs two KV
operations (set, then pruneOldMessagesKV): the block can fail at either
point. -/
inductive KVWriteResp where
  | ok
  | errAtSet (k : ErrKind)
  | errAtPrune (k : ErrKind)
  deriving Repr, DecidableEq

/-- Whole state of the module src/kvStore.deno.ts: the latch kvClient
(null or not), the contents of the Deno KV store (chat entries per chat
id, in ascending key order, and prompt values), and the two in-memory
fallback maps. -/
@[ext]
structure StoreState where
  kvAvailable : Bool
  kvChats : Nat → List KVEntry
  kvPrompts : Nat → Option String
  memoryFallback : Nat → List ChatMemoryRecord
  promptsFallback : Nat → Option String

/-- State at process start: Deno KV is open iff the runtime provides
Deno.openKv (lines 19-28), both KV and the fallback maps are empty. -/
def initState (openKvPresent : Bool) : StoreState :=
  { kvAvailable := openKvPresent
    kvChats := fun _ => []
    kvPrompts := fun _ => none
    memoryFallback := fun _ => []
    promptsFallback := fun _ => none }

/-- kvClient.set on a chat entry: insert into the key-ordered entry list,
overwriting an entry with an identical key (Deno KV set semantics). -/
def kvSetChat (e : KVEntry) : List KVEntry → List KVEntry
  | [] => [e]
  | x :: xs =>
    if keyLt (entryKey e) (entryKey x) then e :: x :: xs
    else if entryKey e = entryKey x then e :: xs
    else x :: kvSetChat e xs

/-- Insertion step of the stable descending-by-timestamp sort used by
pruneOldMessagesKV (comparator on value.timestamp, line 161);
JavaScript Array.prototype.sort is stable, so an element placed earlier
in the input stays before later elements with an equal timestamp. -/
def insertDescTs (a : KVEntry) : List KVEntry → List KVEntry
  | [] => [a]
  | x :: xs =>
    if x.value.timestamp ≤ a.value.timestamp then a :: x :: xs
    else x :: insertDescTs a xs

/-- Stable sort of KV entries, newest timestamp first (line 161). -/
def sortDescTs (l : List KVEntry) : List KVEntry :=
  l.foldr insertDescTs []

/-- Insertion step of the stable ascending-by-timestamp sort used by
getLastMessages and getFullDB on record lists (lines 135 and 207). -/
def insertAscTs (a : ChatMemoryRecord) : List ChatMemoryRecord → List ChatMemoryRecord
  | [] => [a]
  | x :: xs =>
    if a.timestamp ≤ x.timestamp then a :: x :: xs
    else x :: insertAscTs a xs

/-- Stable sort of records, oldest timestamp first (lines 135, 207). -/
def sortAscTs (l : List ChatMemoryRecord) : List ChatMemoryRecord :=
  l.foldr insertAscTs []

/-- JavaScript items.slice(-limit): the last limit items, or the whole
array when limit = 0 (slice(-0) is slice(0)). -/
def sliceLast (l : List α) (limit : Nat) : List α :=
  if limit = 0 then l else l.drop (l.length - limit)

/-- The last n elements of a list. -/
def lastN (n : Nat) (l : List α) : List α :=
  l.drop (l.length - n)

/-- Pure content of pruneOldMessagesKV (lines 150-165) on the entry list
of one chat: read all entries in key order, return unchanged when at most
keep are present, otherwise stably sort newest-first by value timestamp
and delete from KV every entry whose key is listed after the first keep.
The remaining entries keep their KV key order. -/
def pruneChat (l : List KVEntry) (keep : Nat) : List KVEntry :=
  if l.length ≤ keep then l
  else l.filter (fun e => ¬ entryKey e ∈ ((sortDescTs l).drop keep).map entryKey)

/-- pruneOldMessagesKV as a state transformer (only the entries of the
given chat change). -/
def pruneOldMessagesKV (st : StoreState) (chatId : Nat) (keep : Nat) : StoreState :=
  { st with kvChats := fun c => if c = chatId then pruneChat (st.kvChats c) keep else st.kvChats c }

/-- saveInteraction (lines 40-80).  The timestamp (new Date) and the id
(crypto.randomUUID) are nondeterministic inputs of the code and therefore
explicit parameters here; resp is the outcome of the KV block.  On any
caught KV error the code sets kvClient to null and falls through to the
in-memory store, which appends the record and keeps the last keep
entries. -/
def saveInteraction (st : StoreState) (chatId userId : Nat) (username : Option String)
    (userMessage botReply : String) (timestamp id : Nat)
    (resp : KVWriteResp) (keep : Nat) : StoreState :=
  let record : ChatMemoryRecord :=
    { chatId := chatId, userId := userId, username := username
      userMessage := userMessage, botReply := botReply, timestamp := timestamp }
  let memWrite : StoreState → StoreState := fun s =>
    let arr := s.memoryFallback chatId ++ [record]
    { s with memoryFallback := fun c =>
        if c = chatId then arr.drop (arr.length - keep) else s.memoryFallback c }
  if st.kvAvailable then
    match resp with
    | .ok =>
      let afterSet :=
        { st with kvChats := fun c =>
            if c = chatId then kvSetChat ⟨id, record⟩ (st.kvChats c) else st.kvChats c }
      pruneOldMessagesKV afterSet chatId keep
    | .errAtSet _ =>
      memWrite { st with kvAvailable := false }
    | .errAtPrune _ =>
      let afterSet :=
        { st with kvChats := fun c =>
            if c = chatId then kvSetChat ⟨id, record⟩ (st.kvChats c) else st.kvChats c }
      memWrite { afterSet with kvAvailable := false }
  else
    memWrite st

/-- getLastMessages (lines 123-148): on the KV path, collect the record
values in key order, return [] when there are none, otherwise stably sort
oldest-first and return the last limit; on a caught KV error set kvClient
to null and serve from the in-memory fallback, which returns
arr.slice(max(0, arr.length - limit)). -/
def getLastMessages (st : StoreState) (chatId limit : Nat) (resp : KVResp) :
    List ChatMemoryRecord × StoreState :=
  let memRead : StoreState → List ChatMemoryRecord := fun s =>
    let arr := s.memoryFallback chatId
    arr.drop (arr.length - limit)
  if st.kvAvailable then
    match resp with
    | .ok =>
      let items := (st.kvChats chatId).map KVEntry.value
      if items = [] then ([], st)
      else (sliceLast (sortAscTs items) limit, st)
    | .err _ =>
      let st1 := { st with kvAvailable := false }
      (memRead st1, st1)
  else (memRead st, st)

/-- setPrompt (lines 83-94). -/
def setPrompt (st : StoreState) (chatId : Nat) (prompt : String) (resp : KVResp) : StoreState :=
  if st.kvAvailable then
    match resp with
    | .ok =>
      { st with kvPrompts := fun c => if c = chatId then some prompt else st.kvPrompts c }
    | .err _ =>
      let st1 := { st with kvAvailable := false }
      { st1 with promptsFallback := fun c => if c = chatId then some prompt else st1.promptsFallback c }
  else
    { st with promptsFallback := fun c => if c = chatId then some prompt else st.promptsFallback c }

/-- getPrompt (lines 96-107): on the KV path the entry value (or null) is
returned directly; the fallback map is consulted only when KV is not
available or just failed. -/
def getPrompt (st : StoreState) (chatId : Nat) (resp : KVResp) :
    Option String × StoreState :=
  if st.kvAvailable then
    match resp with
    | .ok => (st.kvPrompts chatId, st)
    | .err _ =>
      let st1 := { st with kvAvailable := false }
      (st1.promptsFallback chatId, st1)
  else (st.promptsFallback chatId, st)

/-- clearPrompt (lines 109-120). -/
def clearPrompt (st : StoreState) (chatId : Nat) (resp : KVResp) : StoreState :=
  if st.kvAvailable then
    match resp with
    | .ok =>
      { st with kvPrompts := fun c => if c = chatId then none else st.kvPrompts c }
    | .err _ =>
      let st1 := { st with kvAvailable := false }
      { st1 with promptsFallback := fun c => if c = chatId then none else st1.promptsFallback c }
  else
    { st with promptsFallback := fun c => if c = chatId then none else st.promptsFallback c }

/-- Shape of one entry of recentMessages in the view built by getFullDB
(lines 214-220). -/
structure RecentMessage where
  userId : Nat
  username : Option String
  text : String
  response : String
  timestamp : Nat
  deriving Repr, DecidableEq

/-- Projection used by getFullDB for recentMessages. -/
def recentOf (m : ChatMemoryRecord) : RecentMessage :=
  { userId := m.userId, username := m.username, text := m.userMessage
    response := m.botReply, timestamp := m.timestamp }

/-- Per-conversation value of the view built by getFullDB (lines 205-222). -/
structure ChatView where
  prompt : Option String
  totalMessages : Nat
  recentMessages : List RecentMessage
  deriving Repr, DecidableEq

/-- Per-conversation component of getFullDB (lines 171-234): null when KV
is unavailable or the KV read fails; a conversation is known when it has
at least one record; its records are sorted oldest-first and the view
holds the prompt (or null), the record count, and slice(-10) of the
sorted records.  The code groups entries by the chatId stored in the
record, which for every state reachable by the write path coincides with
the chat id in the key, as modelled here. -/
def getFullDBView (st : StoreState) (chatId : Nat) (resp : KVResp) : Option ChatView :=
  if st.kvAvailable then
    match resp with
    | .ok =>
      let msgs := (st.kvChats chatId).map KVEntry.value
      if msgs = [] then none
      else
        let sorted := sortAscTs msgs
        some { prompt := st.kvPrompts chatId
               totalMessages := sorted.length
               recentMessages := (sorted.drop (sorted.length - 10)).map recentOf }
    | .err _ => none
  else none

/-- Inputs of one saveInteraction call that the code draws from its
environment: caller arguments plus the fresh timestamp and id. -/
structure SaveInput where
  userId : Nat
  username : Option String
  userMessage : String
  botReply : String
  timestamp : Nat
  id : Nat
  deriving Repr, DecidableEq

/-- The ChatMemoryRecord that saveInteraction builds from one input. -/
def recordOf (chatId : Nat) (i : SaveInput) : ChatMemoryRecord :=
  { chatId := chatId, userId := i.userId, username := i.username
    userMessage := i.userMessage, botReply := i.botReply, timestamp := i.timestamp }

/-- The KV entry that saveInteraction writes for one input. -/
def entryOf (chatId : Nat) (i : SaveInput) : KVEntry :=
  ⟨i.id, recordOf chatId i⟩

/-- Run a sequence of saveInteraction calls with explicit KV outcomes,
keep = 5 (the default of the code). -/
def runSavesW (st : StoreState) (chatId : Nat) (l : List (SaveInput × KVWriteResp)) : StoreState :=
  l.foldl (fun s p =>
    saveInteraction s chatId p.1.userId p.1.username p.1.userMessage p.1.botReply
      p.1.timestamp p.1.id p.2 5) st

/-- Run a sequence of saveInteraction calls on which every KV operation
succeeds, keep = 5. -/
def runSaves (st : StoreState) (chatId : Nat) (l : List SaveInput) : StoreState :=
  runSavesW st chatId (l.map (fun i => (i, KVWriteResp.ok)))

end KvStore

namespace Bot

/-- Context lines built by handleTelegramUpdate (src/botController.deno.ts
lines 140-148): two lines pushed per history record, then one line for the
new user message. -/
def buildContextParts (history : List ChatMemoryRecord) (userText : String) : List String :=
  (history.foldl
    (fun acc item => acc ++ ["User: " ++ item.userMessage, "Assistant: " ++ item.botReply])
    []) ++ ["User: " ++ userText]

/-- The composed context string (line 150). -/
def contextString (history : List ChatMemoryRecord) (userText : String) : String :=
  String.intercalate "\n" (buildContextParts history userText)

/-- validateWebhookSecret (src/botController.deno.ts lines 188-198): an
empty configured secret disables validation; otherwise strict equality,
and a missing header never equals a non-empty secret. -/
def validateWebhookSecret (requestSecret : Option String) (expectedSecret : String) : Bool :=
  if expectedSecret = "" then true
  else
    match requestSecret with
    | some s => s = expectedSecret
    | none => false

end Bot

namespace Db

/-- Row of the conversations table (interface ConversationRecord of
src/db.supabase.ts); id and created_at are assigned by the database and
therefore present on every stored row. -/
structure ConversationRecord where
  id : Nat
  chat_id : Nat
  user_id : Nat
  username : Option String
  user_message : String
  bot_reply : String
  created_at : Nat
  deriving Repr, DecidableEq

/-- State of the Supabase store: the conversations table (rows in
insertion order) and the chat_prompts table. -/
@[ext]
structure DbState where
  conversations : List ConversationRecord
  chat_prompts : Nat → Option String

/-- Outcome of one Supabase query: the error field of the reply. -/
inductive DbResp where
  | ok
  | err (msg : String)
  deriving Repr, DecidableEq

/-- Insertion step of the sort by created_at descending used by the
queries order("created_at", ascending: false); ties are modelled as kept
in row order. -/
def insertDescCreated (a : ConversationRecord) :
    List ConversationRecord → List ConversationRecord
  | [] => [a]
  | x :: xs =>
    if x.created_at ≤ a.created_at then a :: x :: xs
    else x :: insertDescCreated a xs

/-- Rows sorted newest created_at first. -/
def sortDescCreated (l : List ConversationRecord) : List ConversationRecord :=
  l.foldr insertDescCreated []

/-- Rows of one chat, in row order (the eq("chat_id", chatId) filter). -/
def chatRows (db : DbState) (chatId : Nat) : List ConversationRecord :=
  db.conversations.filter (fun r => r.chat_id = chatId)

/-- getLastMessages (src/db.supabase.ts lines 171-191): select the rows of
the chat ordered newest-first limited to limit, return [] on a query
error, otherwise reverse to oldest-first. -/
def getLastMessages (db : DbState) (chatId limit : Nat) (resp : DbResp) :
    List ConversationRecord :=
  match resp with
  | .err _ => []
  | .ok => ((sortDescCreated (chatRows db chatId)).take limit).reverse

/-- buildLLMContext (lines 197-205). -/
def buildLLMContext (db : DbState) (chatId : Nat) (resp : DbResp) : String :=
  let messages := getLastMessages db chatId 5 resp
  if messages = [] then ""
  else
    String.intercalate "\n"
      (messages.map (fun m => "User: " ++ m.user_message ++ "\nAssistant: " ++ m.bot_reply))

/-- getPrompt (lines 231-246): null on a query error, otherwise the
stored prompt if any. -/
def getPrompt (db : DbState) (chatId : Nat) (resp : DbResp) : Option String :=
  match resp with
  | .err _ => none
  | .ok => db.chat_prompts chatId

/-- pruneOldMessages (lines 133-166): select the ids of the newest keep
rows of the chat; on a select error, or when fewer than keep rows exist,
leave the table unchanged; otherwise delete every row of the chat whose
id is not among the kept ids (a delete error also leaves the table
unchanged). -/
def pruneOldMessages (db : DbState) (chatId keep : Nat)
    (selResp delResp : DbResp) : DbState :=
  match selResp with
  | .err _ => db
  | .ok =>
    let keepMessages := (sortDescCreated (chatRows db chatId)).take keep
    if keepMessages.length < keep then db
    else
      let keepIds := keepMessages.map (fun m => m.id)
      match delResp with
      | .err _ => db
      | .ok =>
        { db with conversations :=
            db.conversations.filter (fun r => ¬ (r.chat_id = chatId ∧ ¬ r.id ∈ keepIds)) }

/-- Shape of one entry of recentMessages in the view built by
getAdminStats (src/db.supabase.ts lines 336-342). -/
structure AdminRecent where
  userId : Nat
  username : Option String
  text : String
  response : String
  timestamp : Nat
  deriving Repr, DecidableEq

/-- Projection used by getAdminStats for recentMessages. -/
def adminRecentOf (m : ConversationRecord) : AdminRecent :=
  { userId := m.user_id, username := m.username, text := m.user_message
    response := m.bot_reply, timestamp := m.created_at }

/-- Per-conversation value of the view built by getAdminStats
(lines 329-343). -/
structure AdminChatView where
  prompt : Option String
  totalMessages : Nat
  recentMessages : List AdminRecent
  deriving Repr, DecidableEq

/-- Insertion step of the sort by created_at ascending used by the admin
query order("created_at", ascending: true) on line 292; ties are
modelled as kept in row order. -/
def insertAscCreated (a : ConversationRecord) :
    List ConversationRecord → List ConversationRecord
  | [] => [a]
  | x :: xs =>
    if a.created_at ≤ x.created_at then a :: x :: xs
    else x :: insertAscCreated a xs

/-- Rows sorted oldest created_at first. -/
def sortAscCreated (l : List ConversationRecord) : List ConversationRecord :=
  l.foldr insertAscCreated []

/-- Per-conversation component of getAdminStats (lines 286-343): the
admin query selects all conversations ordered created_at ascending and
grouping by chat id preserves that order, so the rows of one chat are its
rows oldest-first; a conversation is known when it has at least one row;
the view holds the prompt (or null), the row count, and slice(-5) of the
rows.  A failing conversations query makes getAdminStats throw, so no
view is produced. -/
def getAdminChatView (db : DbState) (cid : Nat) (resp : DbResp) :
    Option AdminChatView :=
  match resp with
  | .err _ => none
  | .ok =>
    if (sortAscCreated db.conversations).filter (fun r => r.chat_id = cid) = [] then
      none
    else
      some { prompt := db.chat_prompts cid
             totalMessages :=
               ((sortAscCreated db.conversations).filter (fun r => r.chat_id = cid)).length
             recentMessages :=
               (((sortAscCreated db.conversations).filter (fun r => r.chat_id = cid)).drop
                   (((sortAscCreated db.conversations).filter
                       (fun r => r.chat_id = cid)).length - 5)).map adminRecentOf }

end Db

namespace DataStoreM

/-- Prompt part of the in-memory DataStore (src/dataStore.deno.ts lines
26, 57-69): a map from chat id to prompt. -/
structure DataStore where
  chatPrompts : Nat → Option String

/-- DataStore.setPrompt (lines 57-60). -/
def setPrompt (ds : DataStore) (chatId : Nat) (prompt : String) : DataStore :=
  { chatPrompts := fun c => if c = chatId then some prompt else ds.chatPrompts c }

/-- DataStore.getPrompt (lines 62-64). -/
def getPrompt (ds : DataStore) (chatId : Nat) : Option String :=
  ds.chatPrompts chatId

/-- DataStore.clearPrompt (lines 66-69). -/
def clearPrompt (ds : DataStore) (chatId : Nat) : DataStore :=
  { chatPrompts := fun c => if c = chatId then none else ds.chatPrompts c }

end DataStoreM

/-- The foldl of handleTelegramUpdate that pushes two lines per record
equals prepending the accumulator to the flattened two-lines-per-record
list. -/
theorem buildContext_foldl_eq (l : List ChatMemoryRecord) (acc : List String) :
    l.foldl
      (fun a item => a ++ ["User: " ++ item.userMessage, "Assistant: " ++ item.botReply])
      acc =
    acc ++ l.bind (fun m => ["User: " ++ m.userMessage, "Assistant: " ++ m.botReply]) := by
  induction l generalizing acc with
  | nil => simp
  | cons x xs ih => simp [List.foldl_cons, ih]

/-- Claim C10: validateWebhookSecret returns true for every request secret
when the expected secret is empty, and otherwise returns true exactly when
the request carries a secret equal to the expected one. -/
theorem c10_validateWebhookSecret (requestSecret : Option String) (expectedSecret : String) :
    Bot.validateWebhookSecret requestSecret expectedSecret = true ↔
      (expectedSecret = "" ∨ requestSecret = some expectedSecret) := by
  unfold Bot.validateWebhookSecret
  by_cases h : expectedSecret = ""
  · simp [h]
  · cases requestSecret <;> simp [h]

/-- Two-interaction demonstration history for conversation 42: first
("hi", "hello"), then ("bye", "goodbye"). -/
def demoSaves : List KvStore.SaveInput :=
  [{ userId := 7, username := none, userMessage := "hi", botReply := "hello",
     timestamp := 0, id := 0 },
   { userId := 7, username := none, userMessage := "bye", botReply := "goodbye",
     timestamp := 1, id := 1 }]

/-- The same two interactions as rows of the Supabase conversations
table. -/
def demoDb : Db.DbState :=
  { conversations :=
      [{ id := 0, chat_id := 42, user_id := 7, username := none,
         user_message := "hi", bot_reply := "hello", created_at := 0 },
       { id := 1, chat_id := 42, user_id := 7, username := none,
         user_message := "bye", bot_reply := "goodbye", created_at := 1 }]
    chat_prompts := fun _ => none }

/-- Claim C2: the context fed to the language model is, per record oldest
to newest, a User line immediately followed by an Assistant line, with the
new user message appended last; recording ("hi","hello") then
("bye","goodbye") for conversation 42 yields exactly the four lines
"User: hi", "Assistant: hello", "User: bye", "Assistant: goodbye" in that
order (shown both for the KV store feeding handleTelegramUpdate and for
buildLLMContext over the Supabase rows). -/
theorem c2_context_format :
    (∀ (history : List ChatMemoryRecord) (u : String),
      Bot.buildContextParts history u =
        (history.bind (fun m => ["User: " ++ m.userMessage, "Assistant: " ++ m.botReply]))
          ++ ["User: " ++ u]) ∧
    (∀ (u : String),
      Bot.buildContextParts
        ((KvStore.getLastMessages
            (KvStore.runSaves (KvStore.initState true) 42 demoSaves) 42 5 .ok).1) u =
        ["User: hi", "Assistant: hello", "User: bye", "Assistant: goodbye",
         "User: " ++ u]) ∧
    Db.buildLLMContext demoDb 42 .ok =
      "User: hi\nAssistant: hello\nUser: bye\nAssistant: goodbye" := by
  refine ⟨fun history u => ?_, fun u => ?_, ?_⟩
  · unfold Bot.buildContextParts
    rw [buildContext_foldl_eq]
    simp
  · have hrun :
        (KvStore.getLastMessages
            (KvStore.runSaves (KvStore.initState true) 42 demoSaves) 42 5 .ok).1 =
          [{ chatId := 42, userId := 7, username := none, userMessage := "hi",
             botReply := "hello", timestamp := 0 },
           { chatId := 42, userId := 7, username := none, userMessage := "bye",
             botReply := "goodbye", timestamp := 1 }] := by decide
    rw [hrun]
    unfold Bot.buildContextParts
    simp
  · decide

/-- Claim C5: under a total storage outage a history read returns the
empty sequence, a prompt lookup returns no prompt, the LLM context built
from the store is empty, and the context handed to the model then holds
the new user message alone; none of these paths raises a failure. -/
theorem c5_outage_degrades (db : Db.DbState) (chatId limit : Nat) (emsg : String)
    (u : String) :
    Db.getLastMessages db chatId limit (.err emsg) = [] ∧
    Db.getPrompt db chatId (.err emsg) = none ∧
    Db.buildLLMContext db chatId (.err emsg) = "" ∧
    Bot.buildContextParts [] u = ["User: " ++ u] := by
  refine ⟨rfl, rfl, ?_, ?_⟩
  · unfold Db.buildLLMContext Db.getLastMessages
    simp
  · unfold Bot.buildContextParts
    simp

/-- Claim C7: setting a prompt and reading it back returns the same
string, and clearing then reading reports no prompt set, on the KV store
(whichever tier is active) and on the in-memory DataStore. -/
theorem c7_prompt_roundtrip (st : KvStore.StoreState) (ds : DataStoreM.DataStore)
    (c : Nat) (X : String) :
    (KvStore.getPrompt (KvStore.setPrompt st c X .ok) c .ok).1 = some X ∧
    (KvStore.getPrompt (KvStore.clearPrompt st c .ok) c .ok).1 = none ∧
    DataStoreM.getPrompt (DataStoreM.setPrompt ds c X) c = some X ∧
    DataStoreM.getPrompt (DataStoreM.clearPrompt ds c) c = none := by
  refine ⟨?_, ?_, ?_, ?_⟩
  · by_cases h : st.kvAvailable <;>
      simp [KvStore.setPrompt, KvStore.getPrompt, h]
  · by_cases h : st.kvAvailable <;>
      simp [KvStore.clearPrompt, KvStore.getPrompt, h]
  · simp [DataStoreM.setPrompt, DataStoreM.getPrompt]
  · simp [DataStoreM.clearPrompt, DataStoreM.getPrompt]

/-- The last n elements of a list when the list is at most that long. -/
theorem lastN_of_length_le (k : Nat) (l : List α) (h : l.length ≤ k) :
    KvStore.lastN k l = l := by
  unfold KvStore.lastN
  have : l.length - k = 0 := by omega
  simp [this]

/-- lastN returns at most n elements. -/
theorem lastN_length_le (k : Nat) (l : List α) :
    (KvStore.lastN k l).length ≤ k := by
  unfold KvStore.lastN
  simp only [List.length_drop]
  omega

/-- Dropping to the last k elements ignores anything appended on the
left, provided the right part already has at least k elements. -/
theorem lastN_append_left (k : Nat) (t zs : List α) (h : k ≤ zs.length) :
    KvStore.lastN k (t ++ zs) = KvStore.lastN k zs := by
  unfold KvStore.lastN
  have h1 : (t ++ zs).length - k = t.length + (zs.length - k) := by
    simp only [List.length_append]; omega
  rw [h1, List.drop_append]

/-- Keeping the last k, appending, and keeping the last k again is the
same as appending and keeping the last k once. -/
theorem lastN_lastN_append (k : Nat) (xs ys : List α) :
    KvStore.lastN k (KvStore.lastN k xs ++ ys) = KvStore.lastN k (xs ++ ys) := by
  by_cases h : xs.length ≤ k
  · rw [lastN_of_length_le k xs h]
  · have hx : KvStore.lastN k xs = xs.drop (xs.length - k) := rfl
    have hsplit : xs = xs.take (xs.length - k) ++ xs.drop (xs.length - k) :=
      (List.take_append_drop _ xs).symm
    have hlen : k ≤ (xs.drop (xs.length - k) ++ ys).length := by
      simp only [List.length_append, List.length_drop]; omega
    calc KvStore.lastN k (KvStore.lastN k xs ++ ys)
        = KvStore.lastN k (xs.drop (xs.length - k) ++ ys) := by rw [hx]
      _ = KvStore.lastN k (xs.take (xs.length - k) ++ (xs.drop (xs.length - k) ++ ys)) :=
          (lastN_append_left k _ _ hlen).symm
      _ = KvStore.lastN k (xs ++ ys) := by
          rw [← List.append_assoc, ← hsplit]

/-- Claim C3 fails on the code: a Corrupt error from the preferred
durable tier does change the tier selection.  Concretely, a corrupt
failure of the KV set inside saveInteraction on a fresh KV-backed state
nulls kvClient, so the next call is not attempted on the same tier. -/
theorem c3_counterexample :
    (KvStore.saveInteraction (KvStore.initState true) 1 2 none "m" "r" 0 0
        (.errAtSet .corrupt) 5).kvAvailable ≠
      (KvStore.initState true).kvAvailable := by
  decide

/-- Claim C3 amended: every caught error from the KV tier, whether
Unavailable or Corrupt and whether raised at the set or at the prune,
demotes the tier, and the call is then served by the in-memory fallback
instead of failing; a failed prompt read likewise demotes and returns the
fallback value. -/
theorem c3_any_error_demotes (st : KvStore.StoreState) (c u ts i : Nat)
    (un : Option String) (um br : String) (k : KvStore.ErrKind)
    (w : KvStore.KVWriteResp)
    (hkv : st.kvAvailable = true)
    (hw : w = .errAtSet k ∨ w = .errAtPrune k) :
    (KvStore.saveInteraction st c u un um br ts i w 5).kvAvailable = false ∧
    (KvStore.saveInteraction st c u un um br ts i w 5).memoryFallback c =
      KvStore.lastN 5 (st.memoryFallback c ++ [⟨c, u, un, um, br, ts⟩]) ∧
    (KvStore.getPrompt st c (.err k)).2.kvAvailable = false ∧
    (KvStore.getPrompt st c (.err k)).1 = st.promptsFallback c := by
  rcases hw with hw | hw <;> subst hw <;>
    refine ⟨?_, ?_, ?_, ?_⟩ <;>
      simp [KvStore.saveInteraction, KvStore.getPrompt, KvStore.lastN, hkv]

/-- Witness for the amended claim C3 at a concrete input. -/
theorem c3_any_error_demotes_witness :
    (KvStore.saveInteraction (KvStore.initState true) 1 2 none "m" "r" 3 4
        (.errAtPrune .corrupt) 5).kvAvailable = false :=
  (c3_any_error_demotes (KvStore.initState true) 1 2 3 4 none "m" "r"
    .corrupt (.errAtPrune .corrupt) rfl (Or.inr rfl)).1

/-- After demotion, any sequence of saveInteraction calls leaves the KV
contents and the latch untouched and accumulates the last five records in
the in-memory fallback. -/
theorem runSavesW_demoted (c : Nat) (l : List (KvStore.SaveInput × KvStore.KVWriteResp))
    (st : KvStore.StoreState) (h : st.kvAvailable = false)
    (hm : (st.memoryFallback c).length ≤ 5) :
    (KvStore.runSavesW st c l).kvAvailable = false ∧
    (KvStore.runSavesW st c l).kvChats = st.kvChats ∧
    (KvStore.runSavesW st c l).kvPrompts = st.kvPrompts ∧
    (KvStore.runSavesW st c l).memoryFallback c =
      KvStore.lastN 5 (st.memoryFallback c ++ l.map (fun p => KvStore.recordOf c p.1)) := by
  induction l generalizing st with
  | nil =>
    refine ⟨h, rfl, rfl, ?_⟩
    simp [KvStore.runSavesW, (lastN_of_length_le 5 _ hm)]
  | cons p rest ih =>
    set st1 := KvStore.saveInteraction st c p.1.userId p.1.username p.1.userMessage
      p.1.botReply p.1.timestamp p.1.id p.2 5 with hst1
    have h1av : st1.kvAvailable = false := by
      simp [hst1, KvStore.saveInteraction, h]
    have h1chats : st1.kvChats = st.kvChats := by
      simp [hst1, KvStore.saveInteraction, h]
    have h1prompts : st1.kvPrompts = st.kvPrompts := by
      simp [hst1, KvStore.saveInteraction, h]
    have h1mem : st1.memoryFallback c =
        KvStore.lastN 5 (st.memoryFallback c ++ [KvStore.recordOf c p.1]) := by
      simp [hst1, KvStore.saveInteraction, h, KvStore.lastN, KvStore.recordOf]
    have h1memlen : (st1.memoryFallback c).length ≤ 5 := by
      rw [h1mem]; exact lastN_length_le 5 _
    have hrun : KvStore.runSavesW st c (p :: rest) = KvStore.runSavesW st1 c rest := by
      simp [KvStore.runSavesW, hst1]
    obtain ⟨a1, a2, a3, a4⟩ := ih st1 h1av h1memlen
    refine ⟨by rw [hrun]; exact a1, by rw [hrun, a2, h1chats],
      by rw [hrun, a3, h1prompts], ?_⟩
    rw [hrun, a4, h1mem, lastN_lastN_append]
    simp [List.map_cons]

/-- Claim C4: tier demotion is a one-shot per-process latch.  Once the
KV tier reports Unavailable on a write, the latch is cleared; every later
write in the same process leaves the KV contents and prompts untouched
(the demoted tier is never re-attempted) and lands in the in-memory
fallback without the caller observing an error; a fresh process start
attempts the most-preferred tier again, and a first write there is served
by KV. -/
theorem c4_demotion_latch (st : KvStore.StoreState) (c : Nat)
    (inp : KvStore.SaveInput)
    (rest : List (KvStore.SaveInput × KvStore.KVWriteResp))
    (hkv : st.kvAvailable = true) :
    (KvStore.saveInteraction st c inp.userId inp.username inp.userMessage inp.botReply
        inp.timestamp inp.id (.errAtSet .unavailable) 5).kvAvailable = false ∧
    (KvStore.runSavesW
        (KvStore.saveInteraction st c inp.userId inp.username inp.userMessage inp.botReply
          inp.timestamp inp.id (.errAtSet .unavailable) 5) c rest).kvAvailable = false ∧
    (KvStore.runSavesW
        (KvStore.saveInteraction st c inp.userId inp.username inp.userMessage inp.botReply
          inp.timestamp inp.id (.errAtSet .unavailable) 5) c rest).kvChats =
      (KvStore.saveInteraction st c inp.userId inp.username inp.userMessage inp.botReply
        inp.timestamp inp.id (.errAtSet .unavailable) 5).kvChats ∧
    (KvStore.runSavesW
        (KvStore.saveInteraction st c inp.userId inp.username inp.userMessage inp.botReply
          inp.timestamp inp.id (.errAtSet .unavailable) 5) c rest).kvPrompts =
      (KvStore.saveInteraction st c inp.userId inp.username inp.userMessage inp.botReply
        inp.timestamp inp.id (.errAtSet .unavailable) 5).kvPrompts ∧
    (KvStore.runSavesW
        (KvStore.saveInteraction st c inp.userId inp.username inp.userMessage inp.botReply
          inp.timestamp inp.id (.errAtSet .unavailable) 5) c rest).memoryFallback c =
      KvStore.lastN 5
        ((KvStore.saveInteraction st c inp.userId inp.username inp.userMessage inp.botReply
            inp.timestamp inp.id (.errAtSet .unavailable) 5).memoryFallback c ++
          rest.map (fun p => KvStore.recordOf c p.1)) ∧
    (KvStore.initState true).kvAvailable = true ∧
    (KvStore.saveInteraction (KvStore.initState true) c inp.userId inp.username
        inp.userMessage inp.botReply inp.timestamp inp.id .ok 5).kvChats c =
      [KvStore.entryOf c inp] := by
  set st1 := KvStore.saveInteraction st c inp.userId inp.username inp.userMessage
    inp.botReply inp.timestamp inp.id (.errAtSet .unavailable) 5 with hst1
  have h1av : st1.kvAvailable = false := by
    simp [hst1, KvStore.saveInteraction, hkv]
  have h1memlen : (st1.memoryFallback c).length ≤ 5 := by
    have : st1.memoryFallback c =
        KvStore.lastN 5 (st.memoryFallback c ++
          [{ chatId := c, userId := inp.userId, username := inp.username,
             userMessage := inp.userMessage, botReply := inp.botReply,
             timestamp := inp.timestamp }]) := by
      simp [hst1, KvStore.saveInteraction, hkv, KvStore.lastN]
    rw [this]; exact lastN_length_le 5 _
  obtain ⟨a1, a2, a3, a4⟩ := runSavesW_demoted c rest st1 h1av h1memlen
  refine ⟨h1av, a1, a2, a3, a4, rfl, ?_⟩
  simp [KvStore.saveInteraction, KvStore.initState, KvStore.pruneOldMessagesKV,
    KvStore.pruneChat, KvStore.kvSetChat, KvStore.entryOf, KvStore.recordOf]

/-- Witness for claim C4 at a concrete input. -/
theorem c4_demotion_latch_witness :
    (KvStore.saveInteraction (KvStore.initState true) 1 2 none "a" "b" 0 0
        (.errAtSet .unavailable) 5).kvAvailable = false :=
  (c4_demotion_latch (KvStore.initState true) 1
    { userId := 2, username := none, userMessage := "a", botReply := "b",
      timestamp := 0, id := 0 } [] rfl).1

/-- Stable descending insertion only reorders: the result is a
permutation of the element consed onto the list. -/
theorem insertDescTs_perm (a : KvStore.KVEntry) (l : List KvStore.KVEntry) :
    (KvStore.insertDescTs a l).Perm (a :: l) := by
  induction l with
  | nil => simp [KvStore.insertDescTs]
  | cons x xs ih =>
    by_cases h : x.value.timestamp ≤ a.value.timestamp
    · simp [KvStore.insertDescTs, h]
    · simp only [KvStore.insertDescTs, if_neg h]
      exact (ih.cons x).trans (List.Perm.swap a x xs)

/-- The descending sort of pruneOldMessagesKV is a permutation. -/
theorem sortDescTs_perm (l : List KvStore.KVEntry) :
    (KvStore.sortDescTs l).Perm l := by
  induction l with
  | nil => simp [KvStore.sortDescTs]
  | cons a xs ih => exact (insertDescTs_perm a _).trans (ih.cons a)

/-- Deleting, from l, every element whose key occurs after position keep
in some permutation of l leaves at most keep elements. -/
theorem filter_not_mem_sorted_length_le {β : Type} [DecidableEq β]
    (f : KvStore.KVEntry → β) (l sorted : List KvStore.KVEntry)
    (hperm : sorted.Perm l) (keep : Nat) :
    (l.filter (fun e => ¬ f e ∈ (sorted.drop keep).map f)).length ≤ keep := by
  set D := (sorted.drop keep).map f with hD
  set p : KvStore.KVEntry → Bool := fun e => ¬ f e ∈ D with hp
  have h1 : (l.filter p).length = l.countP p :=
    (List.countP_eq_length_filter p l).symm
  have h2 : l.countP p = sorted.countP p := (hperm.countP_eq p).symm
  have h3 : sorted.countP p =
      (sorted.take keep).countP p + (sorted.drop keep).countP p := by
    conv_lhs => rw [← List.take_append_drop keep sorted]
    exact List.countP_append p _ _
  have h4 : (sorted.drop keep).countP p = 0 := by
    rw [List.countP_eq_zero]
    intro e he
    simp only [hp, decide_eq_true_eq, not_not]
    rw [hD]
    exact List.mem_map_of_mem f he
  have h5 : (sorted.take keep).countP p ≤ keep :=
    le_trans (List.countP_le_length p) (by simp)
  rw [h1, h2, h3, h4]
  omega

/-- pruneChat is the identity when at most keep entries are present. -/
theorem pruneChat_of_le (l : List KvStore.KVEntry) (keep : Nat)
    (h : l.length ≤ keep) : KvStore.pruneChat l keep = l := by
  unfold KvStore.pruneChat
  rw [if_pos h]

/-- pruneChat leaves at most keep entries (when more were present it
deletes at least the surplus). -/
theorem pruneChat_length_le (l : List KvStore.KVEntry) (keep : Nat) :
    (KvStore.pruneChat l keep).length ≤ keep := by
  by_cases h : l.length ≤ keep
  · rw [pruneChat_of_le l keep h]; exact h
  · unfold KvStore.pruneChat
    rw [if_neg h]
    simpa using filter_not_mem_sorted_length_le KvStore.entryKey l
      (KvStore.sortDescTs l) (sortDescTs_perm l) keep

/-- pruneChat applied twice with the same keep equals pruneChat once. -/
theorem pruneChat_idem (l : List KvStore.KVEntry) (keep : Nat) :
    KvStore.pruneChat (KvStore.pruneChat l keep) keep = KvStore.pruneChat l keep := by
  by_cases h : l.length ≤ keep
  · rw [pruneChat_of_le l keep h, pruneChat_of_le l keep h]
  · exact pruneChat_of_le _ keep (pruneChat_length_le l keep)

/-- Stable descending insertion on rows only reorders. -/
theorem insertDescCreated_perm (a : Db.ConversationRecord) (l : List Db.ConversationRecord) :
    (Db.insertDescCreated a l).Perm (a :: l) := by
  induction l with
  | nil => simp [Db.insertDescCreated]
  | cons x xs ih =>
    by_cases h : x.created_at ≤ a.created_at
    · simp [Db.insertDescCreated, h]
    · simp only [Db.insertDescCreated, if_neg h]
      exact (ih.cons x).trans (List.Perm.swap a x xs)

/-- The newest-first sort of the Supabase queries is a permutation. -/
theorem sortDescCreated_perm (l : List Db.ConversationRecord) :
    (Db.sortDescCreated l).Perm l := by
  induction l with
  | nil => simp [Db.sortDescCreated]
  | cons a xs ih => exact (insertDescCreated_perm a _).trans (ih.cons a)

/-- Unfolding of pruneOldMessages on the error-free path. -/
theorem db_prune_eq (db : Db.DbState) (c keep : Nat) :
    Db.pruneOldMessages db c keep .ok .ok =
      (if ((Db.sortDescCreated (Db.chatRows db c)).take keep).length < keep then db
       else { db with conversations := db.conversations.filter (fun r =>
          ¬ (r.chat_id = c ∧
            ¬ r.id ∈ ((Db.sortDescCreated (Db.chatRows db c)).take keep).map
              (fun m => m.id))) }) := rfl

/-- Supabase-side prune is idempotent, given that row ids are unique
(they are database-assigned primary keys). -/
theorem db_prune_idem (db : Db.DbState) (c keep : Nat)
    (hids : (db.conversations.map Db.ConversationRecord.id).Nodup) :
    Db.pruneOldMessages (Db.pruneOldMessages db c keep .ok .ok) c keep .ok .ok =
      Db.pruneOldMessages db c keep .ok .ok := by
  by_cases hA : ((Db.sortDescCreated (Db.chatRows db c)).take keep).length < keep
  · rw [db_prune_eq db c keep, if_pos hA, db_prune_eq db c keep, if_pos hA]
  -- surviving-row bookkeeping
  set S := Db.sortDescCreated (Db.chatRows db c) with hS
  set keepIds := (S.take keep).map (fun m => m.id) with hkI
  set db' : Db.DbState :=
    { db with conversations := db.conversations.filter (fun r =>
        ¬ (r.chat_id = c ∧ ¬ r.id ∈ keepIds)) } with hdb'
  have hstep1 : Db.pruneOldMessages db c keep .ok .ok = db' := by
    rw [db_prune_eq db c keep, if_neg hA]
  have hpermS : S.Perm (Db.chatRows db c) := sortDescCreated_perm _
  have hids_f : ((Db.chatRows db c).map Db.ConversationRecord.id).Nodup :=
    ((List.filter_sublist _).map _).nodup hids
  have hids_S : (S.map Db.ConversationRecord.id).Nodup :=
    ((hpermS.map _).nodup_iff).mpr hids_f
  have htake_len : (S.take keep).length = keep := by
    have h1 : (S.take keep).length ≤ keep := by simp
    omega
  -- rows of the chat that survive the first prune
  have hf2 : Db.chatRows db' c =
      (Db.chatRows db c).filter (fun r => r.id ∈ keepIds) := by
    show (db.conversations.filter _).filter _ = (db.conversations.filter _).filter _
    rw [List.filter_filter, List.filter_filter]
    apply List.filter_congr
    intro r _
    by_cases h1 : r.chat_id = c <;> by_cases h2 : r.id ∈ keepIds <;> simp [h1, h2]
  have hdropIds : ∀ x ∈ S.drop keep, ¬ x.id ∈ keepIds := by
    intro x hx hmem
    have hxid : x.id ∈ (S.drop keep).map Db.ConversationRecord.id :=
      List.mem_map_of_mem _ hx
    have hsplit : S.map Db.ConversationRecord.id =
        (S.take keep).map Db.ConversationRecord.id ++
          (S.drop keep).map Db.ConversationRecord.id := by
      rw [← List.map_append, List.take_append_drop]
    rw [hsplit, List.nodup_append] at hids_S
    exact hids_S.2.2 hmem hxid
  have hcount : (Db.chatRows db' c).length = keep := by
    rw [hf2]
    have h1 : ((Db.chatRows db c).filter (fun r => r.id ∈ keepIds)).length =
        (Db.chatRows db c).countP (fun r => r.id ∈ keepIds) :=
      (List.countP_eq_length_filter _ _).symm
    have h2 : (Db.chatRows db c).countP (fun r => r.id ∈ keepIds) =
        S.countP (fun r => r.id ∈ keepIds) := (hpermS.countP_eq _).symm
    have h3 : S.countP (fun r => decide (r.id ∈ keepIds)) =
        (S.take keep).countP (fun r => r.id ∈ keepIds) +
          (S.drop keep).countP (fun r => r.id ∈ keepIds) := by
      conv_lhs => rw [← List.take_append_drop keep S]
      exact List.countP_append _ _ _
    have h4 : (S.take keep).countP (fun r => r.id ∈ keepIds) =
        (S.take keep).length := by
      apply List.countP_eq_length.mpr
      intro r hr
      simp only [decide_eq_true_eq]
      exact hkI ▸ List.mem_map_of_mem _ hr
    have h5 : (S.drop keep).countP (fun r => r.id ∈ keepIds) = 0 := by
      apply List.countP_eq_zero.mpr
      intro r hr
      simpa using hdropIds r hr
    rw [h1, h2, h3, h4, h5, htake_len]
    omega
  set S2 := Db.sortDescCreated (Db.chatRows db' c) with hS2
  have hpermS2 : S2.Perm (Db.chatRows db' c) := sortDescCreated_perm _
  have hlenS2 : S2.length = keep := by rw [hpermS2.length_eq, hcount]
  have htake2 : S2.take keep = S2 := List.take_of_length_le (le_of_eq hlenS2)
  have hB : ¬ (S2.take keep).length < keep := by rw [htake2, hlenS2]; omega
  rw [hstep1, db_prune_eq db' c keep, if_neg hB]
  apply Db.DbState.ext
  · apply List.filter_eq_self.mpr
    intro r hr
    by_cases hchat : r.chat_id = c
    · have hrin : r ∈ Db.chatRows db' c := by
        unfold Db.chatRows
        exact List.mem_filter.mpr ⟨hr, by simp [hchat]⟩
      have hrid : r.id ∈ (S2.take keep).map (fun m => m.id) := by
        rw [htake2]
        exact ((hpermS2.map (fun m => m.id)).mem_iff).mpr
          (List.mem_map_of_mem _ hrin)
      simp only [decide_eq_true_eq]
      intro hcon
      exact hcon.2 hrid
    · simp [hchat]
  · rfl

/-- Claim C6: pruning is idempotent.  For every store state and keep
value, running pruneOldMessagesKV twice retains exactly what one run
retains; likewise for the Supabase pruneOldMessages on its error-free
path, given that row ids are unique (database-assigned primary keys). -/
theorem c6_prune_idempotent (st : KvStore.StoreState) (c keep : Nat) (db : Db.DbState)
    (hids : (db.conversations.map Db.ConversationRecord.id).Nodup) :
    KvStore.pruneOldMessagesKV (KvStore.pruneOldMessagesKV st c keep) c keep =
      KvStore.pruneOldMessagesKV st c keep ∧
    Db.pruneOldMessages (Db.pruneOldMessages db c keep .ok .ok) c keep .ok .ok =
      Db.pruneOldMessages db c keep .ok .ok := by
  refine ⟨?_, db_prune_idem db c keep hids⟩
  unfold KvStore.pruneOldMessagesKV
  apply KvStore.StoreState.ext
  · rfl
  · funext c'
    by_cases h : c' = c
    · simp [h, pruneChat_idem]
    · simp [h]
  · rfl
  · rfl
  · rfl

/-- Rows used by the witness of claim C6: two interactions of chat 1. -/
def demoDb6 : Db.DbState :=
  { conversations :=
      [{ id := 10, chat_id := 1, user_id := 7, username := none,
         user_message := "a", bot_reply := "b", created_at := 0 },
       { id := 11, chat_id := 1, user_id := 7, username := none,
         user_message := "c", bot_reply := "d", created_at := 1 }]
    chat_prompts := fun _ => none }

/-- Witness for claim C6 at a concrete state with keep = 1. -/
theorem c6_prune_idempotent_witness :
    (demoDb6.conversations.map Db.ConversationRecord.id).Nodup ∧
    Db.pruneOldMessages (Db.pruneOldMessages demoDb6 1 1 .ok .ok) 1 1 .ok .ok =
      Db.pruneOldMessages demoDb6 1 1 .ok .ok :=
  ⟨by decide, (c6_prune_idempotent (KvStore.initState true) 1 1 demoDb6 (by decide)).2⟩

/-- Strictly smaller keys are different keys. -/
theorem keyLt_ne {a b : Nat × Nat} (h : KvStore.keyLt a b) : b ≠ a := by
  unfold KvStore.keyLt at h
  intro he
  subst he
  omega

/-- Inserting a record no newer than everything present conses it onto
an ascending list. -/
theorem insertAscTs_cons_of_le (a : ChatMemoryRecord) (l : List ChatMemoryRecord)
    (h : ∀ x ∈ l, a.timestamp ≤ x.timestamp) :
    KvStore.insertAscTs a l = a :: l := by
  cases l with
  | nil => rfl
  | cons x xs =>
    simp only [KvStore.insertAscTs, if_pos (h x (List.mem_cons_self x xs))]

/-- The stable ascending sort is the identity on an already ascending
record list. -/
theorem sortAscTs_of_sorted (l : List ChatMemoryRecord)
    (h : l.Pairwise (fun a b => a.timestamp ≤ b.timestamp)) :
    KvStore.sortAscTs l = l := by
  induction l with
  | nil => rfl
  | cons a xs ih =>
    have hstep : KvStore.sortAscTs (a :: xs) =
        KvStore.insertAscTs a (KvStore.sortAscTs xs) := rfl
    rw [hstep, ih (List.Pairwise.of_cons h)]
    exact insertAscTs_cons_of_le a xs (List.pairwise_cons.mp h).1

/-- lastN keeps min(length, n) elements. -/
theorem lastN_length (k : Nat) (l : List α) :
    (KvStore.lastN k l).length = min l.length k := by
  unfold KvStore.lastN
  simp only [List.length_drop]
  omega

/-- The priority order that pruneOldMessagesKV actually implements: an
entry counts as strictly newer when its timestamp is later, or, for equal
timestamps, when its id is lexicographically smaller (the stable
descending sort leaves equal-timestamp entries in KV key order, so the
smaller id ends up earlier in the newest-first list). -/
def newerInPrune (a b : KvStore.KVEntry) : Prop :=
  b.value.timestamp < a.value.timestamp ∨
    (a.value.timestamp = b.value.timestamp ∧ a.id < b.id)

/-- Entry-level key order. -/
def entKeyLt (a b : KvStore.KVEntry) : Prop :=
  KvStore.keyLt (KvStore.entryKey a) (KvStore.entryKey b)

/-- The entry key order spelled out on record fields. -/
theorem entKeyLt_iff (a b : KvStore.KVEntry) :
    entKeyLt a b ↔ (a.value.timestamp < b.value.timestamp ∨
      (a.value.timestamp = b.value.timestamp ∧ a.id < b.id)) :=
  Iff.rfl

/-- Membership in the descending insertion. -/
theorem mem_insertDescTs {y a : KvStore.KVEntry} {m : List KvStore.KVEntry} :
    y ∈ KvStore.insertDescTs a m ↔ y = a ∨ y ∈ m := by
  rw [(insertDescTs_perm a m).mem_iff]
  simp

/-- Inserting an entry below every present key into a newest-first list
keeps it newest-first. -/
theorem insertDescTs_pairwise (a : KvStore.KVEntry) (m : List KvStore.KVEntry)
    (hm : m.Pairwise newerInPrune) (ha : ∀ x ∈ m, entKeyLt a x) :
    (KvStore.insertDescTs a m).Pairwise newerInPrune := by
  induction m with
  | nil => exact List.pairwise_singleton _ _
  | cons x xs ih =>
    have hax : a.value.timestamp < x.value.timestamp ∨
        (a.value.timestamp = x.value.timestamp ∧ a.id < x.id) :=
      (entKeyLt_iff a x).mp (ha x (List.mem_cons_self x xs))
    by_cases hcond : x.value.timestamp ≤ a.value.timestamp
    · have heq : a.value.timestamp = x.value.timestamp ∧ a.id < x.id := by
        rcases hax with h | h
        · exact absurd h (by omega)
        · exact h
      simp only [KvStore.insertDescTs, if_pos hcond]
      apply List.pairwise_cons.mpr
      refine ⟨?_, hm⟩
      intro y hy
      rcases List.mem_cons.mp hy with hy | hy
      · subst hy
        exact Or.inr heq
      · have hxy : newerInPrune x y := (List.pairwise_cons.mp hm).1 y hy
        have hay : a.value.timestamp < y.value.timestamp ∨
            (a.value.timestamp = y.value.timestamp ∧ a.id < y.id) :=
          (entKeyLt_iff a y).mp (ha y (List.mem_cons_of_mem x hy))
        rcases hxy with h1 | h1
        · exact Or.inl (by omega)
        · rcases hay with h2 | h2
          · exact absurd h2 (by omega)
          · exact Or.inr h2
    · simp only [KvStore.insertDescTs, if_neg hcond]
      apply List.pairwise_cons.mpr
      constructor
      · intro y hy
        rcases mem_insertDescTs.mp hy with hy | hy
        · subst hy
          exact Or.inl (by omega)
        · exact (List.pairwise_cons.mp hm).1 y hy
      · exact ih (List.Pairwise.of_cons hm) (fun y hy => ha y (List.mem_cons_of_mem x hy))

/-- On a key-ordered entry list the stable descending sort is sorted by
the priority order newerInPrune. -/
theorem sortDescTs_pairwise (l : List KvStore.KVEntry)
    (h : l.Pairwise entKeyLt) :
    (KvStore.sortDescTs l).Pairwise newerInPrune := by
  induction l with
  | nil => exact List.Pairwise.nil
  | cons a xs ih =>
    have hstep : KvStore.sortDescTs (a :: xs) =
        KvStore.insertDescTs a (KvStore.sortDescTs xs) := rfl
    rw [hstep]
    apply insertDescTs_pairwise
    · exact ih (List.Pairwise.of_cons h)
    · intro x hx
      exact (List.pairwise_cons.mp h).1 x ((sortDescTs_perm xs).mem_iff.mp hx)

instance (a b : KvStore.KVEntry) : Decidable (entKeyLt a b) := by
  unfold entKeyLt
  infer_instance

/-- Key-ordered entry lists have pairwise distinct keys. -/
theorem nodup_keys_of_pairwise (l : List KvStore.KVEntry)
    (h : l.Pairwise entKeyLt) : (l.map KvStore.entryKey).Nodup :=
  h.map KvStore.entryKey (fun _ _ hab => (keyLt_ne hab).symm)

/-- Two equal-timestamp entries of one chat, ids 0 and 1. -/
def demoTieA : KvStore.KVEntry :=
  ⟨0, { chatId := 1, userId := 2, username := none, userMessage := "m1",
        botReply := "r1", timestamp := 7 }⟩

/-- Companion entry of demoTieA with the larger id. -/
def demoTieB : KvStore.KVEntry :=
  ⟨1, { chatId := 1, userId := 2, username := none, userMessage := "m2",
        botReply := "r2", timestamp := 7 }⟩

/-- Two rows of chat 1 sharing created_at 5, ids 10 then 11 in row
order. -/
def demoDbTie : Db.DbState :=
  { conversations :=
      [{ id := 10, chat_id := 1, user_id := 2, username := none,
         user_message := "m1", bot_reply := "r1", created_at := 5 },
       { id := 11, chat_id := 1, user_id := 2, username := none,
         user_message := "m2", bot_reply := "r2", created_at := 5 }]
    chat_prompts := fun _ => none }

/-- Claim C8 fails on the code: with two records sharing a timestamp and
keep = 1, pruneOldMessagesKV retains the record with the lexicographically
smaller recordId and deletes the larger one, whereas the claim says the
smaller recordId is treated as older and deleted first.  The Supabase
pruneOldMessages implements no recordId tie-break either (it orders by
created_at only, ties left to the database): on the same tie it, too, can
retain the smaller id, as the row-order tie resolution shows. -/
theorem c8_counterexample :
    KvStore.pruneChat [demoTieA, demoTieB] 1 = [demoTieA] ∧
    demoTieA.id < demoTieB.id ∧
    demoTieA.value.timestamp = demoTieB.value.timestamp ∧
    (Db.pruneOldMessages demoDbTie 1 1 .ok .ok).conversations.map
      Db.ConversationRecord.id = [10] := by
  decide

/-- Claim C8 amended: on a key-ordered chat with more than keep entries,
prune retains exactly keep of them, a subsequence of the stored order,
and every retained entry is strictly newer than every deleted one under
the order the code implements: createdAt ascending, and for equal
timestamps the record with the lexicographically LARGER recordId is the
older one (deleted first). -/
theorem c8_prune_order_amended (l : List KvStore.KVEntry) (keep : Nat)
    (hinv : l.Pairwise entKeyLt) (hkeep : keep < l.length) :
    (KvStore.pruneChat l keep).length = keep ∧
    List.Sublist (KvStore.pruneChat l keep) l ∧
    (∀ r ∈ KvStore.pruneChat l keep, ∀ d ∈ l, ¬ d ∈ KvStore.pruneChat l keep →
      newerInPrune r d) := by
  have hne : ¬ l.length ≤ keep := by omega
  have hunfold : KvStore.pruneChat l keep =
      l.filter (fun e => ¬ KvStore.entryKey e ∈
        ((KvStore.sortDescTs l).drop keep).map KvStore.entryKey) := by
    unfold KvStore.pruneChat
    rw [if_neg hne]
  set S := KvStore.sortDescTs l with hS
  set p : KvStore.KVEntry → Bool :=
    fun e => ¬ KvStore.entryKey e ∈ (S.drop keep).map KvStore.entryKey with hp
  have hperm : S.Perm l := sortDescTs_perm l
  have hpairS : S.Pairwise newerInPrune := sortDescTs_pairwise l hinv
  have hkeysl : (l.map KvStore.entryKey).Nodup := nodup_keys_of_pairwise l hinv
  have hkeysS : (S.map KvStore.entryKey).Nodup :=
    ((hperm.map _).nodup_iff).mpr hkeysl
  have hSsplit : S = S.take keep ++ S.drop keep := (List.take_append_drop keep S).symm
  have hkeys_split : S.map KvStore.entryKey =
      (S.take keep).map KvStore.entryKey ++ (S.drop keep).map KvStore.entryKey := by
    rw [← List.map_append, ← hSsplit]
  have hdisj : ∀ k, k ∈ (S.take keep).map KvStore.entryKey →
      k ∈ (S.drop keep).map KvStore.entryKey → False := by
    have h2 := hkeys_split ▸ hkeysS
    intro k h3 h4
    exact (List.nodup_append.mp h2).2.2 h3 h4
  have hTp : ∀ x ∈ S.take keep, p x = true := by
    intro x hx
    simp only [hp, decide_eq_true_eq]
    intro hmem
    exact hdisj (KvStore.entryKey x) (List.mem_map_of_mem _ hx) hmem
  have hDp : ∀ x ∈ S.drop keep, ¬ p x = true := by
    intro x hx
    simp only [hp, decide_eq_true_eq, not_not, Decidable.not_not]
    exact List.mem_map_of_mem _ hx
  have hlenT : (S.take keep).length = keep := by
    have h1 : S.length = l.length := hperm.length_eq
    simp only [List.length_take]
    omega
  have hlen : (KvStore.pruneChat l keep).length = keep := by
    rw [hunfold]
    have h1 : (l.filter p).length = l.countP p :=
      (List.countP_eq_length_filter p l).symm
    have h2 : l.countP p = S.countP p := (hperm.countP_eq p).symm
    have h3 : S.countP p = (S.take keep).countP p + (S.drop keep).countP p := by
      conv_lhs => rw [hSsplit]
      exact List.countP_append p _ _
    have h4 : (S.take keep).countP p = (S.take keep).length :=
      List.countP_eq_length.mpr hTp
    have h5 : (S.drop keep).countP p = 0 := List.countP_eq_zero.mpr hDp
    calc (l.filter p).length = l.countP p := h1
      _ = S.countP p := h2
      _ = (S.take keep).countP p + (S.drop keep).countP p := h3
      _ = keep + 0 := by rw [h4, h5, hlenT]
      _ = keep := by omega
  refine ⟨hlen, hunfold ▸ List.filter_sublist l, ?_⟩
  intro r hr d hd hdnot
  have hpr : p r = true := (List.mem_filter.mp (hunfold ▸ hr)).2
  have hpd : ¬ p d = true := by
    intro hpd
    exact hdnot (hunfold ▸ List.mem_filter.mpr ⟨hd, hpd⟩)
  have hdD : d ∈ S.drop keep := by
    have hkd : KvStore.entryKey d ∈ (S.drop keep).map KvStore.entryKey := by
      by_contra hkd
      exact hpd (by simp only [hp, decide_eq_true_eq]; exact hkd)
    obtain ⟨y, hy, hyk⟩ := List.mem_map.mp hkd
    have hyS : y ∈ S := List.mem_of_mem_drop hy
    have hdS : d ∈ S := hperm.mem_iff.mpr hd
    have : y = d := List.inj_on_of_nodup_map hkeysS hyS hdS hyk
    exact this ▸ hy
  have hrT : r ∈ S.take keep := by
    have hrS : r ∈ S := hperm.mem_iff.mpr (List.mem_of_mem_filter (hunfold ▸ hr))
    rcases List.mem_append.mp (hSsplit ▸ hrS) with h | h
    · exact h
    · exact absurd (hDp r h) (by simp [hpr])
  exact (List.pairwise_append.mp (hSsplit ▸ hpairS)).2.2 r hrT d hdD

/-- Witness for the amended claim C8 at the equal-timestamp pair. -/
theorem c8_prune_order_amended_witness :
    ([demoTieA, demoTieB].Pairwise entKeyLt) ∧
    1 < ([demoTieA, demoTieB] : List KvStore.KVEntry).length ∧
    (KvStore.pruneChat [demoTieA, demoTieB] 1).length = 1 :=
  ⟨by decide, by decide,
    (c8_prune_order_amended [demoTieA, demoTieB] 1 (by decide) (by decide)).1⟩

/-- A KV-backed state whose chat 1 holds two records, timestamps 0 and
1. -/
def demoSt9 : KvStore.StoreState :=
  { kvAvailable := true
    kvChats := fun c =>
      if c = 1 then
        [⟨0, { chatId := 1, userId := 2, username := none, userMessage := "a",
               botReply := "b", timestamp := 0 }⟩,
         ⟨1, { chatId := 1, userId := 2, username := none, userMessage := "c",
               botReply := "d", timestamp := 1 }⟩]
      else []
    kvPrompts := fun _ => none
    memoryFallback := fun _ => []
    promptsFallback := fun _ => none }


/-- Stable ascending insertion on rows only reorders. -/
theorem insertAscCreated_perm (a : Db.ConversationRecord)
    (l : List Db.ConversationRecord) :
    (Db.insertAscCreated a l).Perm (a :: l) := by
  induction l with
  | nil => simp [Db.insertAscCreated]
  | cons x xs ih =>
    by_cases h : a.created_at ≤ x.created_at
    · simp [Db.insertAscCreated, h]
    · simp only [Db.insertAscCreated, if_neg h]
      exact (ih.cons x).trans (List.Perm.swap a x xs)

/-- Ascending insertion preserves ascending order. -/
theorem insertAscCreated_pairwise (a : Db.ConversationRecord)
    (m : List Db.ConversationRecord)
    (hm : m.Pairwise (fun x y => x.created_at ≤ y.created_at)) :
    (Db.insertAscCreated a m).Pairwise (fun x y => x.created_at ≤ y.created_at) := by
  induction m with
  | nil => exact List.pairwise_singleton _ _
  | cons x xs ih =>
    by_cases h : a.created_at ≤ x.created_at
    · simp only [Db.insertAscCreated, if_pos h]
      apply List.pairwise_cons.mpr
      refine ⟨?_, hm⟩
      intro y hy
      rcases List.mem_cons.mp hy with hy | hy
      · subst hy; exact h
      · exact le_trans h ((List.pairwise_cons.mp hm).1 y hy)
    · simp only [Db.insertAscCreated, if_neg h]
      apply List.pairwise_cons.mpr
      constructor
      · intro y hy
        rcases List.mem_cons.mp ((insertAscCreated_perm a xs).mem_iff.mp hy) with hy | hy
        · subst hy; omega
        · exact (List.pairwise_cons.mp hm).1 y hy
      · exact ih (List.Pairwise.of_cons hm)

/-- The admin query sort really is ascending by created_at. -/
theorem sortAscCreated_pairwise (l : List Db.ConversationRecord) :
    (Db.sortAscCreated l).Pairwise (fun x y => x.created_at ≤ y.created_at) := by
  induction l with
  | nil => exact List.Pairwise.nil
  | cons a xs ih => exact insertAscCreated_pairwise a _ ih

/-- Six rows of chat 1, created_at 0 through 5. -/
def demoDb9 : Db.DbState :=
  { conversations :=
      [{ id := 0, chat_id := 1, user_id := 2, username := none,
         user_message := "a0", bot_reply := "b0", created_at := 0 },
       { id := 1, chat_id := 1, user_id := 2, username := none,
         user_message := "a1", bot_reply := "b1", created_at := 1 },
       { id := 2, chat_id := 1, user_id := 2, username := none,
         user_message := "a2", bot_reply := "b2", created_at := 2 },
       { id := 3, chat_id := 1, user_id := 2, username := none,
         user_message := "a3", bot_reply := "b3", created_at := 3 },
       { id := 4, chat_id := 1, user_id := 2, username := none,
         user_message := "a4", bot_reply := "b4", created_at := 4 },
       { id := 5, chat_id := 1, user_id := 2, username := none,
         user_message := "a5", bot_reply := "b5", created_at := 5 }]
    chat_prompts := fun _ => none }

/-- Claim C9 fails on the code on two counts.  Order: the aggregate
presents the recent records of a conversation oldest-first, not
newest-first (on a chat with timestamps 0 and 1 the recentMessages
timestamps come out as [0, 1]).  Cap: the Supabase getAdminStats, which
serves the /admin aggregate, takes slice(-5), so a chat with six records
shows only its last five, not up to ten. -/
theorem c9_counterexample :
    ((KvStore.getFullDBView demoSt9 1 .ok).map
        (fun v => v.recentMessages.map KvStore.RecentMessage.timestamp)) = some [0, 1] ∧
    ¬ ([0, 1] : List Nat).Pairwise (fun a b => b ≤ a) ∧
    ((Db.getAdminChatView demoDb9 1 .ok).map
        (fun v => v.totalMessages)) = some 6 ∧
    ((Db.getAdminChatView demoDb9 1 .ok).map
        (fun v => v.recentMessages.length)) = some 5 := by
  refine ⟨by decide, by decide, by decide, by decide⟩

/-- Claim C9 amended: for every conversation known to the backend, the
admin aggregate maps it to its prompt (or none), its total record count,
and its most recent records presented oldest-first, capped at 10 in the
KV getFullDB view and at 5 in the Supabase getAdminStats view. -/
theorem c9_admin_view_amended (st : KvStore.StoreState) (cid : Nat)
    (db : Db.DbState) (did : Nat)
    (hav : st.kvAvailable = true)
    (hsort : (st.kvChats cid).Pairwise
      (fun a b => a.value.timestamp ≤ b.value.timestamp))
    (hne : st.kvChats cid ≠ [])
    (hdne : (Db.sortAscCreated db.conversations).filter (fun r => r.chat_id = did) ≠ []) :
    KvStore.getFullDBView st cid .ok =
      some { prompt := st.kvPrompts cid
             totalMessages := (st.kvChats cid).length
             recentMessages :=
               (KvStore.lastN 10 ((st.kvChats cid).map KvStore.KVEntry.value)).map
                 KvStore.recentOf } ∧
    Db.getAdminChatView db did .ok =
      some { prompt := db.chat_prompts did
             totalMessages :=
               ((Db.sortAscCreated db.conversations).filter (fun r => r.chat_id = did)).length
             recentMessages :=
               (KvStore.lastN 5 ((Db.sortAscCreated db.conversations).filter
                   (fun r => r.chat_id = did))).map Db.adminRecentOf } ∧
    ((KvStore.lastN 5 ((Db.sortAscCreated db.conversations).filter
        (fun r => r.chat_id = did))).map Db.adminRecentOf).length =
      min ((Db.sortAscCreated db.conversations).filter (fun r => r.chat_id = did)).length 5 ∧
    ((KvStore.lastN 5 ((Db.sortAscCreated db.conversations).filter
        (fun r => r.chat_id = did))).map Db.adminRecentOf).Pairwise
      (fun a b => a.timestamp ≤ b.timestamp) := by
  refine ⟨?_, ?_, ?_, ?_⟩
  · have hmsgs : (st.kvChats cid).map KvStore.KVEntry.value ≠ [] := by
      simpa using hne
    have hsorted : ((st.kvChats cid).map KvStore.KVEntry.value).Pairwise
        (fun a b => a.timestamp ≤ b.timestamp) :=
      hsort.map _ (fun _ _ h => h)
    unfold KvStore.getFullDBView
    rw [hav]
    simp only [if_true]
    rw [if_neg hmsgs, sortAscTs_of_sorted _ hsorted]
    simp [KvStore.lastN]
  · simp only [Db.getAdminChatView]
    rw [if_neg hdne]
    rfl
  · rw [List.length_map, lastN_length]
  · have h1 : ((Db.sortAscCreated db.conversations).filter
        (fun r => r.chat_id = did)).Pairwise
        (fun x y => x.created_at ≤ y.created_at) :=
      (sortAscCreated_pairwise db.conversations).filter _
    have h2 : (KvStore.lastN 5 ((Db.sortAscCreated db.conversations).filter
        (fun r => r.chat_id = did))).Pairwise
        (fun x y => x.created_at ≤ y.created_at) :=
      h1.sublist (List.drop_sublist _ _)
    exact h2.map _ (fun _ _ h => h)

/-- Witness for the amended claim C9 at the two-record KV state and the
two-row conversations table. -/
theorem c9_admin_view_amended_witness :
    demoSt9.kvAvailable = true ∧
    (demoSt9.kvChats 1).Pairwise (fun a b => a.value.timestamp ≤ b.value.timestamp) ∧
    demoSt9.kvChats 1 ≠ [] ∧
    (Db.sortAscCreated demoDb6.conversations).filter (fun r => r.chat_id = 1) ≠ [] ∧
    Db.getAdminChatView demoDb6 1 .ok =
      some { prompt := demoDb6.chat_prompts 1
             totalMessages :=
               ((Db.sortAscCreated demoDb6.conversations).filter (fun r => r.chat_id = 1)).length
             recentMessages :=
               (KvStore.lastN 5 ((Db.sortAscCreated demoDb6.conversations).filter
                   (fun r => r.chat_id = 1))).map Db.adminRecentOf } :=
  ⟨rfl, by decide, by decide, by decide,
    (c9_admin_view_amended demoSt9 1 demoDb6 1 rfl (by decide) (by decide) (by decide)).2.1⟩

